import Mathlib

/-!
Verification development for the PyMata command handler
(`pymata_command_handler.py`, class `PyMataCommandHandler`).

The Python class is shallowly embedded below.  Python machine-level details
that matter here are modelled explicitly:

* The response tables `digital_response_table` and `analog_response_table`
  are *class attributes* (lists created once at class-definition time).
  `self.digital_response_table.append(...)` inside `__init__` mutates that
  shared class-level list, so every constructed instance appends to the same
  two lists.  The embedding therefore keeps the two tables in a
  process/class-level state `HState`, while the attributes assigned through
  `self.x = ...` in `__init__` (`number_digital_pins`, `number_analog_pins`)
  live in a per-instance record `Inst`.
* Python list indexing out of range raises `IndexError`; subscripting the
  `None` returned by a failed `dict.get` lookup raises `TypeError`.  Both
  exceptions terminate the receive thread, since `run` has no handler.
  Fallible operations are embedded in `Except PyErr`.
* `transport.write(chr(x))` is modelled by appending the byte `x` to an
  `output` trace; `print` in `_string_data` appends to a `console` trace.
-/

/-- Exceptions a handler or the decoder loop can raise.  `indexError` models a
Python `IndexError` from list subscripting; `typeError` models the `TypeError`
raised by `dispatch_entry[0]` when `command_dispatch.get` returned `None`. -/
inductive PyErr where
  | indexError
  | typeError
deriving DecidableEq, Repr

/-- One response-table entry.  In the source each entry is the two-element list
`[mode, value]` with `RESPONSE_TABLE_MODE = 0` and
`RESPONSE_TABLE_PIN_DATA_VALUE = 1`; here it is a record with a `mode` field
and a `value` field.  `value` is an `Int` because `encoder_data` stores
negative values. -/
structure PinEntry where
  mode : Nat
  value : Int
deriving DecidableEq, Repr

/-- Pin mode INPUT (Firmata define `INPUT = 0x00`). -/
def INPUT : Nat := 0x00

/-- Command byte `START_SYSEX = 0xF0`. -/
def START_SYSEX : Nat := 0xF0

/-- Command byte `END_SYSEX = 0xF7`. -/
def END_SYSEX : Nat := 0xF7

/-- Command byte `SYSTEM_RESET = 0xFF`. -/
def SYSTEM_RESET : Nat := 0xFF

/-- An element appended to the class attribute `firmata_firmware`:
`report_firmware` appends two numbers (major, minor) and then one string,
modelled as the list of its character codes. -/
inductive FirmwareItem where
  | num (n : Nat)
  | name (chars : List Nat)
deriving DecidableEq, Repr

/-- The class-level mutable state of `PyMataCommandHandler` together with the
externally observable effect traces.  The two response tables and the
`firmata_version` / `firmata_firmware` lists are class attributes in the
source, shared by every instance in the process. -/
structure HState where
  digital_response_table : List PinEntry
  analog_response_table : List PinEntry
  firmata_version : List Nat
  firmata_firmware : List FirmwareItem
  /-- Bytes written to the transport so far (`transport.write`). -/
  output : List Nat
  /-- Lines printed by `_string_data`, each a list of character codes. -/
  console : List (List Nat)
deriving DecidableEq, Repr

/-- The attributes `__init__` assigns through `self.` (instance attributes):
the configured pin counts. -/
structure Inst where
  number_digital_pins : Nat
  number_analog_pins : Nat
deriving DecidableEq, Repr

/-- A process starts with both class-level tables empty (`digital_response_table = []`,
`analog_response_table = []` at class-definition time). -/
def freshProcess : HState :=
  { digital_response_table := []
    analog_response_table := []
    firmata_version := []
    firmata_firmware := []
    output := []
    console := [] }

/-- Embedding of `__init__(transport, command_deque, data_lock,
number_digital_pins, number_analog_pins)`: appends `number_digital_pins`
entries `[INPUT, 0]` to the class-level digital table and
`number_analog_pins` entries to the class-level analog table, and records the
pin counts as instance attributes. -/
def pymata_init (nd na : Nat) (s : HState) : HState × Inst :=
  ({ s with
      digital_response_table :=
        s.digital_response_table ++ List.replicate nd ⟨INPUT, 0⟩
      analog_response_table :=
        s.analog_response_table ++ List.replicate na ⟨INPUT, 0⟩ },
   ⟨nd, na⟩)

/-- Python list subscript `l[i]` for reading: `IndexError` when out of range.
(Indices here are always non-negative in the source paths modelled.) -/
def pyGet (l : List Nat) (i : Nat) : Except PyErr Nat :=
  match l[i]? with
  | some v => .ok v
  | none => .error .indexError

/-- Python assignment `tbl[pin][1] = v`: replace the `value` field of entry
`pin`, `IndexError` when `pin` is out of range. -/
def setPinValue (tbl : List PinEntry) (pin : Nat) (v : Int) :
    Except PyErr (List PinEntry) :=
  match tbl[pin]? with
  | some e => .ok (tbl.set pin { e with value := v })
  | none => .error .indexError

/-- The value stored at index `i` of a table, when in range. -/
def pinValueAt (tbl : List PinEntry) (i : Nat) : Option Int :=
  (tbl[i]?).map PinEntry.value

/-- The mode stored at index `i` of a table, when in range. -/
def pinModeAt (tbl : List PinEntry) (i : Nat) : Option Nat :=
  (tbl[i]?).map PinEntry.mode

/-- Embedding of `report_version(data)`: append `data[0]` and `data[1]` to the
`firmata_version` list. -/
def report_version (data : List Nat) (s : HState) : Except PyErr HState := do
  let d0 ← pyGet data 0
  let d1 ← pyGet data 1
  .ok { s with firmata_version := s.firmata_version ++ [d0, d1] }

/-- Python slice `l[::2]`: the elements at even offsets 0, 2, 4, ... -/
def everyOther : List Nat → List Nat
  | [] => []
  | [a] => [a]
  | a :: _ :: rest => a :: everyOther rest

/-- Embedding of `report_firmware(data)`: append `data[0]` (major) and
`data[1]` (minor), then the file name decoded from `data[2:]` by taking every
other byte (`name_data[::2]`) and turning each into a character. -/
def report_firmware (data : List Nat) (s : HState) : Except PyErr HState := do
  let d0 ← pyGet data 0
  let d1 ← pyGet data 1
  .ok { s with
          firmata_firmware :=
            s.firmata_firmware ++
              [.num d0, .num d1, .name (everyOther (data.drop 2))] }

/-- Embedding of `analog_message(data)`: store `(data[2] << 7) + data[1]`
into `analog_response_table[data[0]][1]`.  (The source spells the index
`data[self.RESPONSE_TABLE_MODE]`, i.e. `data[0]`, the pin number.) -/
def analog_message (data : List Nat) (s : HState) : Except PyErr HState := do
  let msb ← pyGet data 2
  let lsb ← pyGet data 1
  let pin ← pyGet data 0
  let tbl ← setPinValue s.analog_response_table pin ((msb <<< 7) + lsb : Nat)
  .ok { s with analog_response_table := tbl }

/-- The loop body of `digital_message`: starting at index `pin`, repeat `k`
times: set `digital_response_table[pin][1] = port_data & 0x01`, then
`port_data >>= 1` and move to the next pin.  In the source each iteration is
its own `data_lock.acquire` / `release` pair. -/
def digitalLoop : Nat → Nat → Nat → List PinEntry → Except PyErr (List PinEntry)
  | _, _, 0, tbl => .ok tbl
  | pin, pd, k + 1, tbl => do
      let tbl' ← setPinValue tbl pin ((pd &&& 0x01 : Nat) : Int)
      digitalLoop (pin + 1) (pd >>> 1) k tbl'

/-- Embedding of `digital_message(data)`: `port = data[0]`,
`port_data = (data[2] << 7) + data[1]`, then the 8-iteration loop writing pins
`port*8 .. port*8+7`. -/
def digital_message (data : List Nat) (s : HState) : Except PyErr HState := do
  let port ← pyGet data 0
  let msb ← pyGet data 2
  let lsb ← pyGet data 1
  let tbl ← digitalLoop (port * 8) ((msb <<< 7) + lsb) 8 s.digital_response_table
  .ok { s with digital_response_table := tbl }

/-- Embedding of `encoder_data(data)`: `val = (data[2] << 7) + data[1]`;
if `val > 8192` then `val -= 16384`; store `val` into
`digital_response_table[data[0]][1]` (the digital table, not a separate
encoder table). -/
def encoder_data (data : List Nat) (s : HState) : Except PyErr HState := do
  let msb ← pyGet data 2
  let lsb ← pyGet data 1
  let val0 : Int := ((msb <<< 7) + lsb : Nat)
  let val : Int := if val0 > 8192 then val0 - 16384 else val0
  let pin ← pyGet data 0
  let tbl ← setPinValue s.digital_response_table pin val
  .ok { s with digital_response_table := tbl }

/-- Embedding of `_string_data(data)`: print the characters taken from
`data[::2]`; no table is touched. -/
def string_data (data : List Nat) (s : HState) : Except PyErr HState :=
  .ok { s with console := s.console ++ [everyOther data] }

/-- Write one byte to the transport (`self.transport.write(chr(b))`). -/
def writeByte (b : Nat) (s : HState) : HState :=
  { s with output := s.output ++ [b] }

/-- The table part of `system_reset`: pop every entry of both class-level
tables, then append `number_digital_pins` / `number_analog_pins` fresh
`[INPUT, 0]` entries, all inside one `data_lock` critical section.  The net
effect of the pop-all / re-append loops is captured by `List.replicate`. -/
def resetTables (inst : Inst) (s : HState) : HState :=
  { s with
      digital_response_table := List.replicate inst.number_digital_pins ⟨INPUT, 0⟩
      analog_response_table := List.replicate inst.number_analog_pins ⟨INPUT, 0⟩ }

/-- Embedding of `system_reset()`: first `transport.write(chr(SYSTEM_RESET))`,
then reinitialize both tables. -/
def system_reset (inst : Inst) (s : HState) : HState :=
  resetTables inst (writeByte SYSTEM_RESET s)

/-- C7: `system_reset` writes the single `SYSTEM_RESET` byte `0xFF` to the
transport and then resets every entry of both tables to `{mode := INPUT,
value := 0}`, with the resulting lengths equal to the configured pin
counts. -/
theorem c7_system_reset (inst : Inst) (s : HState) :
    (system_reset inst s).output = s.output ++ [0xFF] ∧
    (system_reset inst s).digital_response_table =
      List.replicate inst.number_digital_pins ⟨INPUT, 0⟩ ∧
    (system_reset inst s).analog_response_table =
      List.replicate inst.number_analog_pins ⟨INPUT, 0⟩ ∧
    (system_reset inst s).digital_response_table.length = inst.number_digital_pins ∧
    (system_reset inst s).analog_response_table.length = inst.number_analog_pins := by
  refine ⟨rfl, rfl, rfl, ?_, ?_⟩ <;>
    simp [system_reset, resetTables, writeByte]

/-- Accessor lemma: `setPinValue` succeeds exactly when the index is in
range, and then updates only the `value` field of that entry. -/
theorem setPinValue_ok (tbl : List PinEntry) (pin : Nat) (v : Int) (h : pin < tbl.length) :
    ∃ e, tbl[pin]? = some e ∧
      setPinValue tbl pin v = .ok (tbl.set pin { e with value := v }) := by
  rcases List.getElem?_eq_some_iff.mpr ⟨h, rfl⟩ with he
  exact ⟨tbl[pin], he, by simp [setPinValue, he]⟩

/-- Accessor lemma: `setPinValue` raises `IndexError` when the index is out of
range. -/
theorem setPinValue_err (tbl : List PinEntry) (pin : Nat) (v : Int) (h : tbl.length ≤ pin) :
    setPinValue tbl pin v = .error .indexError := by
  have : tbl[pin]? = none := List.getElem?_eq_none h
  simp [setPinValue, this]

/-- Tags for the six handler methods registered in `run`'s dispatch table. -/
inductive HandlerTag where
  | reportVersion
  | reportFirmware
  | analogMsg
  | digitalMsg
  | encoderData
  | stringData
deriving DecidableEq, Repr

/-- The `command_dispatch` map as populated at the top of `run`:
`REPORT_VERSION (0xF9) ↦ (report_version, 2)`,
`REPORT_FIRMWARE (0x79) ↦ (report_firmware, 1)`,
`ANALOG_MESSAGE (0xE0) ↦ (analog_message, 2)`,
`DIGITAL_MESSAGE (0x90) ↦ (digital_message, 2)`,
`ENCODER_DATA (0x21) ↦ (encoder_data, 3)`,
`STRING_DATA (0x71) ↦ (_string_data, 2)`; `dict.get` yields `none`
for any other key. -/
def command_dispatch (cmd : Nat) : Option (HandlerTag × Nat) :=
  if cmd = 0xF9 then some (.reportVersion, 2)
  else if cmd = 0x79 then some (.reportFirmware, 1)
  else if cmd = 0xE0 then some (.analogMsg, 2)
  else if cmd = 0x90 then some (.digitalMsg, 2)
  else if cmd = 0x21 then some (.encoderData, 3)
  else if cmd = 0x71 then some (.stringData, 2)
  else none

/-- Call the handler method behind a dispatch-table entry. -/
def invoke (tag : HandlerTag) (data : List Nat) (s : HState) : Except PyErr HState :=
  match tag with
  | .reportVersion => report_version data s
  | .reportFirmware => report_firmware data s
  | .analogMsg => analog_message data s
  | .digitalMsg => digital_message data s
  | .encoderData => encoder_data data s
  | .stringData => string_data data s

/-- The sysex data-collection loop of `run`: pop bytes into `command_data`
until `END_SYSEX` is popped.  Returns the collected bytes and the bytes after
the terminator, or `none` when no `END_SYSEX` is present yet (the loop would
keep waiting for more input). -/
def takeUntilSysexEnd : List Nat → Option (List Nat × List Nat)
  | [] => none
  | b :: rest =>
    if b = END_SYSEX then some ([], rest)
    else
      match takeUntilSysexEnd rest with
      | some (d, r) => some (b :: d, r)
      | none => none

/-- The receive loop of `run`, applied to a finite prefix of the byte stream.
Returning `.ok s` means the decoder is alive in state `s` (either all bytes
were consumed or it is blocked waiting for the rest of a message); returning
`.error e` means the thread was terminated by the uncaught exception `e`.
`fuel` bounds the number of messages processed and is irrelevant whenever it
is at least the length of the byte list.

Faithful ordering detail: in the sysex branch the source computes
`dispatch_entry = self.command_dispatch.get(sysex_command)` and immediately
`method = dispatch_entry[0]` *before* collecting the data bytes, so an
unknown sysex code raises `TypeError` at that point. -/
def decodeRun : Nat → HState → List Nat → Except PyErr HState
  | 0, s, _ => .ok s
  | _ + 1, s, [] => .ok s
  | fuel + 1, s, b :: rest =>
    if b = START_SYSEX then
      match rest with
      | [] => .ok s
      | c :: rest2 =>
        match command_dispatch c with
        | none => .error .typeError
        | some (tag, _) =>
          match takeUntilSysexEnd rest2 with
          | none => .ok s
          | some (dataBytes, rest3) =>
            match invoke tag dataBytes s with
            | .error e => .error e
            | .ok s' => decodeRun fuel s' rest3
    else if 0x80 ≤ b ∧ b ≤ 0xff then
      let p : Nat × List Nat :=
        if 0x90 ≤ b ∧ b ≤ 0x9f then (0x90, [b &&& 0xf])
        else if 0xe0 ≤ b ∧ b ≤ 0xe9 then (0xe0, [b &&& 0xf])
        else (b, [])
      match command_dispatch p.1 with
      | none => .error .typeError
      | some (tag, arity) =>
        if arity ≤ rest.length then
          match invoke tag (p.2 ++ rest.take arity) s with
          | .error e => .error e
          | .ok s' => decodeRun fuel s' (rest.drop arity)
        else .ok s
    else
      decodeRun fuel s rest

/-- Characterization of the `digital_message` loop: when all `k` indices are
in range the loop succeeds, preserves the table length, leaves entries outside
`[pin, pin+k)` untouched, writes bit `i` of `pd` into the value of entry
`pin + i`, and leaves every mode unchanged. -/
theorem digitalLoop_ok (k : Nat) : ∀ (pin pd : Nat) (tbl : List PinEntry),
    pin + k ≤ tbl.length →
    ∃ tbl', digitalLoop pin pd k tbl = .ok tbl' ∧
      tbl'.length = tbl.length ∧
      (∀ j, j < pin ∨ pin + k ≤ j → tbl'[j]? = tbl[j]?) ∧
      (∀ i, i < k → pinValueAt tbl' (pin + i) = some (((pd >>> i) &&& 1 : Nat) : Int)) ∧
      (∀ i, i < k → pinModeAt tbl' (pin + i) = pinModeAt tbl (pin + i)) := by
  induction k with
  | zero =>
    intro pin pd tbl _
    exact ⟨tbl, rfl, rfl, fun j _ => rfl,
      fun i hi => absurd hi (by omega), fun i hi => absurd hi (by omega)⟩
  | succ k ih =>
    intro pin pd tbl h
    have hpin : pin < tbl.length := by omega
    obtain ⟨e, he, hset⟩ := setPinValue_ok tbl pin ((pd &&& 1 : Nat) : Int) hpin
    have hlen1 : ((pin + 1) : Nat) + k ≤ (tbl.set pin { e with value := ((pd &&& 1 : Nat) : Int) }).length := by
      rw [List.length_set]
      omega
    obtain ⟨tbl', hrun, hlen, hout, hval, hmode⟩ :=
      ih (pin + 1) (pd >>> 1) (tbl.set pin { e with value := ((pd &&& 1 : Nat) : Int) }) hlen1
    have hstep : digitalLoop pin pd (k + 1) tbl = .ok tbl' := by
      have hunf : digitalLoop pin pd (k + 1) tbl = (do
          let tbl1 ← setPinValue tbl pin ((pd &&& 1 : Nat) : Int)
          digitalLoop (pin + 1) (pd >>> 1) k tbl1) := rfl
      rw [hunf, hset]
      exact hrun
    have hat : tbl'[pin]? = some { e with value := ((pd &&& 1 : Nat) : Int) } := by
      rw [hout pin (Or.inl (by omega)), List.getElem?_set_self hpin]
    rw [List.length_set] at hlen
    refine ⟨tbl', hstep, hlen, ?_, ?_, ?_⟩
    · intro j hj
      rw [hout j (by omega), List.getElem?_set_ne (by omega)]
    · intro i hi
      match i with
      | 0 =>
        simp [pinValueAt, hat]
      | i' + 1 =>
        have hsh : pd >>> 1 >>> i' = pd >>> (i' + 1) := by
          rw [Nat.add_comm i' 1, Nat.shiftRight_add]
        have harr : pin + (i' + 1) = (pin + 1) + i' := by omega
        rw [harr, hval i' (by omega), hsh]
    · intro i hi
      match i with
      | 0 =>
        simp [pinModeAt, hat, he]
      | i' + 1 =>
        have harr : pin + (i' + 1) = (pin + 1) + i' := by omega
        rw [harr, hmode i' (by omega), pinModeAt, pinModeAt,
          List.getElem?_set_ne (by omega)]

/-- C4: for every port `port` and byte `b ≤ 255`, a DIGITAL_MESSAGE whose
LSB/MSB pair encodes `b` (i.e. `(msb <<< 7) + lsb = b`) sets
`digital[port*8+i].value` to `(b >>> i) &&& 1` for every `i < 8` (all indices
assumed within the table). -/
theorem c4_digital_message (port b lsb msb : Nat) (s : HState)
    (hb : b ≤ 255) (henc : (msb <<< 7) + lsb = b)
    (hlen : port * 8 + 8 ≤ s.digital_response_table.length) :
    ∃ s', digital_message [port, lsb, msb] s = .ok s' ∧
      ∀ i, i < 8 → pinValueAt s'.digital_response_table (port * 8 + i) =
        some (((b >>> i) &&& 1 : Nat) : Int) := by
  obtain ⟨tbl', hrun, hlen', hout, hval, hmode⟩ :=
    digitalLoop_ok 8 (port * 8) ((msb <<< 7) + lsb) s.digital_response_table hlen
  refine ⟨{ s with digital_response_table := tbl' }, ?_, ?_⟩
  · have hunf : digital_message [port, lsb, msb] s = (do
        let tbl ← digitalLoop (port * 8) ((msb <<< 7) + lsb) 8 s.digital_response_table
        Except.ok { s with digital_response_table := tbl }) := rfl
    rw [hunf, hrun]
    rfl
  · intro i hi
    rw [hval i hi, henc]

/-- A concrete state used to instantiate the hypothesis-bearing theorems:
8 digital pins and 2 analog pins, all entries `{mode := INPUT, value := 0}`,
as produced by constructing the first handler of a process with
`number_digital_pins = 8` and `number_analog_pins = 2`. -/
def sample8 : HState := (pymata_init 8 2 freshProcess).1

/-- Witness for C4 at port 0, byte 255 (LSB 127, MSB 1). -/
theorem c4_digital_message_witness :
    ∃ s', digital_message [0, 127, 1] sample8 = .ok s' ∧
      ∀ i, i < 8 → pinValueAt s'.digital_response_table (0 * 8 + i) =
        some (((255 >>> i) &&& 1 : Nat) : Int) :=
  c4_digital_message 0 255 127 1 sample8 (by decide) (by decide) (by decide)

/-- C5: for every 14-bit value `v` encoded as LSB then MSB (each with high
bit clear) and every in-range analog pin `k`, an ANALOG_MESSAGE for pin `k`
sets `analog[k].value` to `v = (msb <<< 7) + lsb` and leaves `analog[k].mode`
unchanged (the digital table is untouched). -/
theorem c5_analog_message (k v lsb msb : Nat) (s : HState)
    (hlsb : lsb < 128) (hmsb : msb < 128)
    (henc : (msb <<< 7) + lsb = v)
    (hk : k < s.analog_response_table.length) :
    ∃ s', analog_message [k, lsb, msb] s = .ok s' ∧
      pinValueAt s'.analog_response_table k = some (v : Int) ∧
      pinModeAt s'.analog_response_table k = pinModeAt s.analog_response_table k ∧
      s'.digital_response_table = s.digital_response_table := by
  obtain ⟨e, he, hset⟩ := setPinValue_ok s.analog_response_table k
    (((msb <<< 7) + lsb : Nat) : Int) hk
  rw [Nat.cast_add] at hset
  refine ⟨{ s with analog_response_table :=
      s.analog_response_table.set k { e with value := ((msb <<< 7 : Nat) : Int) + (lsb : Int) } },
    ?_, ?_, ?_, rfl⟩
  · simp [analog_message, pyGet, Bind.bind, Except.bind, hset]
  · have hv : ((msb <<< 7 : Nat) : Int) + (lsb : Int) = ((v : Nat) : Int) := by
      rw [← Nat.cast_add, henc]
    simp [pinValueAt, List.getElem?_set_self hk, hv]
  · simp [pinModeAt, List.getElem?_set_self hk, he]

/-- Witness for C5 at pin 1, value 300 (LSB 44, MSB 2). -/
theorem c5_analog_message_witness :
    ∃ s', analog_message [1, 44, 2] sample8 = .ok s' ∧
      pinValueAt s'.analog_response_table 1 = some (300 : Int) ∧
      pinModeAt s'.analog_response_table 1 = pinModeAt sample8.analog_response_table 1 ∧
      s'.digital_response_table = sample8.digital_response_table :=
  c5_analog_message 1 300 44 2 sample8 (by decide) (by decide) (by decide) (by decide)

/-- C6: for every ENCODER_DATA payload `[pin, lsb, msb]` with
`raw = (msb <<< 7) + lsb`, the stored value is `raw - 16384` when
`raw > 8192` and `raw` otherwise, and it is stored into the *digital* table
entry for that pin, leaving the analog table alone (no separate encoder
table exists). -/
theorem c6_encoder_data (pin lsb msb raw : Nat) (s : HState)
    (hlsb : lsb < 128) (hmsb : msb < 128)
    (henc : (msb <<< 7) + lsb = raw)
    (hpin : pin < s.digital_response_table.length) :
    ∃ s', encoder_data [pin, lsb, msb] s = .ok s' ∧
      pinValueAt s'.digital_response_table pin =
        some (if (raw : Int) > 8192 then (raw : Int) - 16384 else (raw : Int)) ∧
      s'.analog_response_table = s.analog_response_table := by
  obtain ⟨e, he, hset⟩ := setPinValue_ok s.digital_response_table pin
    (if (raw : Int) > 8192 then (raw : Int) - 16384 else (raw : Int)) hpin
  refine ⟨{ s with digital_response_table := s.digital_response_table.set pin { e with value := if (raw : Int) > 8192 then (raw : Int) - 16384 else (raw : Int) } }, ?_, ?_, rfl⟩
  · have hunf : encoder_data [pin, lsb, msb] s = (do
        let tbl ← setPinValue s.digital_response_table pin
          (if (((msb <<< 7) + lsb : Nat) : Int) > 8192 then (((msb <<< 7) + lsb : Nat) : Int) - 16384 else (((msb <<< 7) + lsb : Nat) : Int))
        Except.ok { s with digital_response_table := tbl }) := rfl
    rw [hunf, henc, hset]
    rfl
  · simp [pinValueAt, List.getElem?_set_self hpin]

/-- Witness for C6 at pin 2, raw value 16000 (LSB 0, MSB 125), which is
sign-extended to -384. -/
theorem c6_encoder_data_witness :
    ∃ s', encoder_data [2, 0, 125] sample8 = .ok s' ∧
      pinValueAt s'.digital_response_table 2 =
        some (if ((16000 : Nat) : Int) > 8192 then ((16000 : Nat) : Int) - 16384 else ((16000 : Nat) : Int)) ∧
      s'.analog_response_table = sample8.analog_response_table :=
  c6_encoder_data 2 0 125 16000 sample8 (by decide) (by decide) (by decide) (by decide)

/-- C1 (evidence): an inbound command with no entry in `command_dispatch`
terminates the Decoder thread instead of being discarded.  For the sysex
stream `F0 55 F7 ...` the lookup `command_dispatch.get(0x55)` yields `None`
and `dispatch_entry[0]` raises `TypeError`; the valid ANALOG_MESSAGE that
follows in the same stream is never decoded.  Likewise for the unknown
non-sysex command byte `0xA0`.  The same ANALOG_MESSAGE delivered on its own
is decoded fine, showing the crash (not the stream) is what stops later
messages. -/
theorem c1_unknown_code_terminates_decoder :
    decodeRun 10 sample8 [0xF0, 0x55, 0xF7, 0xE1, 44, 2] = .error .typeError ∧
    decodeRun 10 sample8 [0xA0, 1, 2] = .error .typeError ∧
    (∃ s', decodeRun 10 sample8 [0xE1, 44, 2] = .ok s' ∧
       pinValueAt s'.analog_response_table 1 = some 300) :=
  ⟨rfl, rfl, ⟨_, rfl, rfl⟩⟩

/-- The value `get_digital_response_table` / `get_analog_response_table`
return.  In the source the body is `data = self.analog_response_table;
return data`: the assignment copies the *reference*, not the list, so the
caller receives the live class-level list object itself.  A reference is
identified here by which table it denotes. -/
inductive TableRef where
  | digitalRef
  | analogRef
deriving DecidableEq, Repr

/-- Embedding of `get_digital_response_table()`: returns the live list
object (a reference into mutable class state), not a copy. -/
def get_digital_response_table : TableRef := TableRef.digitalRef

/-- Embedding of `get_analog_response_table()`: returns the live list
object (a reference into mutable class state), not a copy. -/
def get_analog_response_table : TableRef := TableRef.analogRef

/-- Reading the contents of a returned table reference at a (possibly later)
class state `s`: because the reference aliases the live list, the contents
observed are whatever the table holds in `s`. -/
def readTable (r : TableRef) (s : HState) : List PinEntry :=
  match r with
  | .digitalRef => s.digital_response_table
  | .analogRef => s.analog_response_table

/-- C2 (evidence): the accessors do not return an independent snapshot.
After `get_analog_response_table()` returns, a subsequent ANALOG_MESSAGE
changes the contents seen through the returned object (same for the digital
accessor under a DIGITAL_MESSAGE), contradicting snapshot isolation. -/
theorem c2_accessor_returns_live_alias :
    (∃ s1, analog_message [1, 44, 2] sample8 = .ok s1 ∧
      readTable get_analog_response_table s1 ≠ readTable get_analog_response_table sample8) ∧
    (∃ s2, digital_message [0, 127, 1] sample8 = .ok s2 ∧
      readTable get_digital_response_table s2 ≠ readTable get_digital_response_table sample8) :=
  ⟨⟨_, rfl, by decide⟩, ⟨_, rfl, by decide⟩⟩

/-- One critical section of the `digital_message` loop: the source acquires
`data_lock`, performs the single assignment
`digital_response_table[pin][1] = port_data & 0x01` for `pin = port*8 + i`
(where `port_data` has already been shifted right `i` times, so the bit
written is `(b >>> i) &&& 1`), and releases the lock again — one lock-hold
per pin, eight per message. -/
def digitalMsgSection (port b i : Nat) (tbl : List PinEntry) : List PinEntry :=
  match tbl[port * 8 + i]? with
  | some e => tbl.set (port * 8 + i) { e with value := (((b >>> i) &&& 1 : Nat) : Int) }
  | none => tbl

/-- The table contents a reader that acquires `data_lock` between the `j`-th
and `(j+1)`-th critical sections of an in-flight DIGITAL_MESSAGE update
observes: the first `j` per-pin writes have landed, the remaining `8 - j`
have not. -/
def observeAfterSections (port b j : Nat) (tbl : List PinEntry) : List PinEntry :=
  List.foldl (fun t i => digitalMsgSection port b i t) tbl (List.range j)

/-- C3 (evidence): `digital_message` holds `data_lock` per entry, not for the
whole 8-entry update, so a reader that takes the lock mid-update observes a
mixed port.  For port 0, old bits all 0, new byte 255: after 4 of the 8
critical sections the table is neither the pre-update state (all 0) nor the
post-update state (all 1).  The first conjunct ties the section decomposition
to `digital_message` itself: running all 8 sections yields exactly the
handler's final table. -/
theorem c3_digital_message_locks_per_entry :
    (∃ s', digital_message [0, 127, 1] sample8 = .ok s' ∧
      s'.digital_response_table = observeAfterSections 0 255 8 sample8.digital_response_table) ∧
    observeAfterSections 0 255 4 sample8.digital_response_table ≠
      sample8.digital_response_table ∧
    observeAfterSections 0 255 4 sample8.digital_response_table ≠
      observeAfterSections 0 255 8 sample8.digital_response_table :=
  ⟨⟨_, rfl, by decide⟩, by decide, by decide⟩

/-- C9 (evidence): the response tables are class attributes, so constructing
a second handler in the same process appends to the same lists.  After
constructing a handler with 2 digital pins and then one with 3 digital pins,
the (shared) digital table has 5 entries — violating the length invariant of
both instances (2 and 3); a first, lone construction does satisfy it. -/
theorem c9_tables_shared_across_instances :
    (pymata_init 2 1 freshProcess).1.digital_response_table.length = 2 ∧
    (pymata_init 3 1 (pymata_init 2 1 freshProcess).1).1.digital_response_table.length = 5 ∧
    (pymata_init 3 1 (pymata_init 2 1 freshProcess).1).2.number_digital_pins = 3 ∧
    (pymata_init 3 1 (pymata_init 2 1 freshProcess).1).1.analog_response_table.length = 2 ∧
    (pymata_init 3 1 (pymata_init 2 1 freshProcess).1).2.number_analog_pins = 1 := by
  decide

/-- Decoding of a two-byte-per-character payload as claim C8 words it: one
character per complete (low byte, high byte) pair, with a single trailing
unpaired byte contributing no character.  Stated only for comparison with
`everyOther`, the decode the source actually performs via `[::2]`. -/
def decodePairedOnly : List Nat → List Nat
  | a :: _ :: rest => a :: decodePairedOnly rest
  | _ => []

/-- On an odd-length payload, the source's `[::2]` decode takes every
complete pair's low byte *and also* the trailing unpaired byte: it equals
the pairs-only decode with the last byte appended as one more character. -/
theorem everyOther_odd_last : ∀ (l : List Nat) (b : Nat),
    l.length % 2 = 1 → l.getLast? = some b →
    everyOther l = decodePairedOnly l ++ [b]
  | [], _, h, _ => by simp at h
  | [a], b, _, hl => by
      simp [List.getLast?] at hl
      subst hl
      rfl
  | a :: c :: rest, b, h, hl => by
      have hodd : rest.length % 2 = 1 := by
        simp [List.length_cons] at h
        omega
      have hne : rest ≠ [] := by
        intro he
        rw [he] at hodd
        simp at hodd
      have hl' : rest.getLast? = some b := by
        rcases rest with _ | ⟨r, rs⟩
        · exact absurd rfl hne
        · rw [List.getLast?_cons_cons, List.getLast?_cons_cons] at hl
          exact hl
      have ih := everyOther_odd_last rest b hodd hl'
      simp [everyOther, decodePairedOnly, ih]

/-- C8 counterexample: for the odd-length name payload `[65, 0, 66]`
(`"A"` then the unpaired low byte `66`), the source decodes *two* characters
`[65, 66]` — the trailing unpaired byte becomes a character, it is not
ignored as the claim states (the claim's pairs-only reading yields `[65]`).
A whole REPORT_FIRMWARE message carrying that payload is still processed and
stores the two-character name. -/
theorem c8_counterexample_trailing_byte_decoded :
    everyOther [65, 0, 66] = [65, 66] ∧
    decodePairedOnly [65, 0, 66] = [65] ∧
    everyOther [65, 0, 66] ≠ decodePairedOnly [65, 0, 66] ∧
    (∃ s', report_firmware [1, 2, 65, 0, 66] sample8 = .ok s' ∧
      s'.firmata_firmware = sample8.firmata_firmware ++ [.num 1, .num 2, .name [65, 66]]) :=
  ⟨rfl, rfl, by decide, ⟨_, rfl, rfl⟩⟩

/-- C8 as amended: decoding of an odd-length two-byte-per-character payload
is best-effort — the characters are the paired bytes' low bytes *plus* one
character from the trailing unpaired byte — and the message as a whole is
still processed rather than rejected: `report_firmware` succeeds on any
payload with at least major and minor bytes (name decoded from the rest,
odd or not), and `_string_data` succeeds on every payload. -/
theorem c8_odd_payload_best_effort (l : List Nat) (b : Nat)
    (hodd : l.length % 2 = 1) (hlast : l.getLast? = some b)
    (data : List Nat) (s : HState) (d0 d1 : Nat)
    (h0 : data[0]? = some d0) (h1 : data[1]? = some d1) :
    everyOther l = decodePairedOnly l ++ [b] ∧
    report_firmware data s =
      .ok { s with firmata_firmware := s.firmata_firmware ++ [.num d0, .num d1, .name (everyOther (data.drop 2))] } ∧
    string_data data s = .ok { s with console := s.console ++ [everyOther data] } := by
  refine ⟨everyOther_odd_last l b hodd hlast, ?_, rfl⟩
  simp [report_firmware, pyGet, Bind.bind, Except.bind, h0, h1]

/-- Witness for the amended C8 on the payload `[65, 0, 66]` inside the
REPORT_FIRMWARE message `[1, 2, 65, 0, 66]`. -/
theorem c8_odd_payload_best_effort_witness :
    everyOther [65, 0, 66] = decodePairedOnly [65, 0, 66] ++ [66] ∧
    report_firmware [1, 2, 65, 0, 66] sample8 =
      .ok { sample8 with firmata_firmware := sample8.firmata_firmware ++ [.num 1, .num 2, .name (everyOther ([1, 2, 65, 0, 66].drop 2))] } ∧
    string_data [1, 2, 65, 0, 66] sample8 = .ok { sample8 with console := sample8.console ++ [everyOther [1, 2, 65, 0, 66]] } :=
  c8_odd_payload_best_effort [65, 0, 66] 66 (by decide) (by decide)
    [1, 2, 65, 0, 66] sample8 1 2 (by decide) (by decide)

/-- C10: `analog_message` and `encoder_data` index their table directly with
the pin byte `data[0]` and perform no bounds check, so any pin at or past the
table length makes the handler raise `IndexError` instead of the message
being discarded.  The third conjunct shows such an input is reachable from
the byte stream: the decoder accepts command byte `0xE9` (analog pin nibble
9) regardless of the analog table's size, so with at most 9 configured
analog pins the ANALOG_MESSAGE `E9 lsb msb` crashes the handler call. -/
theorem c10_unchecked_pin_indexing (s : HState) (k pin lsb msb : Nat)
    (ha : s.analog_response_table.length ≤ k)
    (hd : s.digital_response_table.length ≤ pin)
    (h9 : s.analog_response_table.length ≤ 9) :
    analog_message [k, lsb, msb] s = .error .indexError ∧
    encoder_data [pin, lsb, msb] s = .error .indexError ∧
    decodeRun 1 s [0xE9, lsb, msb] = .error .indexError := by
  have hana : ∀ j, s.analog_response_table.length ≤ j →
      analog_message [j, lsb, msb] s = .error .indexError := by
    intro j hj
    have hunf : analog_message [j, lsb, msb] s = (do
        let tbl ← setPinValue s.analog_response_table j (((msb <<< 7 : Nat) : Int) + (lsb : Int))
        Except.ok { s with analog_response_table := tbl }) := rfl
    rw [hunf, setPinValue_err s.analog_response_table j (((msb <<< 7 : Nat) : Int) + (lsb : Int)) hj]
    rfl
  have hencdr : encoder_data [pin, lsb, msb] s = .error .indexError := by
    have hunf : encoder_data [pin, lsb, msb] s = (do
        let tbl ← setPinValue s.digital_response_table pin
          (if (((msb <<< 7) + lsb : Nat) : Int) > 8192 then (((msb <<< 7) + lsb : Nat) : Int) - 16384 else (((msb <<< 7) + lsb : Nat) : Int))
        Except.ok { s with digital_response_table := tbl }) := rfl
    rw [hunf, setPinValue_err s.digital_response_table pin
      (if (((msb <<< 7) + lsb : Nat) : Int) > 8192 then (((msb <<< 7) + lsb : Nat) : Int) - 16384 else (((msb <<< 7) + lsb : Nat) : Int)) hd]
    rfl
  refine ⟨hana k ha, hencdr, ?_⟩
  have hunf : decodeRun 1 s [0xE9, lsb, msb] =
      (match analog_message [9, lsb, msb] s with
       | .error e => .error e
       | .ok s' => decodeRun 0 s' []) := rfl
  rw [hunf, hana 9 h9]

/-- Witness for C10: with 2 configured analog pins and 8 digital pins, pin
byte 9 (analog) and pin byte 10 (encoder) are out of range, and the raw
stream `E9 00 00` kills the handler invocation. -/
theorem c10_unchecked_pin_indexing_witness :
    analog_message [9, 0, 0] sample8 = .error .indexError ∧
    encoder_data [10, 0, 0] sample8 = .error .indexError ∧
    decodeRun 1 sample8 [0xE9, 0, 0] = .error .indexError :=
  c10_unchecked_pin_indexing sample8 9 10 0 0 (by decide) (by decide) (by decide)
